import Mathlib

/-!
Verification of the LuCalendar natural-language command pipeline.

The JavaScript sources under `server/` are shallowly embedded below:
pure functions become Lean functions, JavaScript strings become `String`,
machine numbers become `Int`/`Nat` (the quantities involved are small and
exact), instants become millisecond counts, and the process-wide
"last handled event" variable becomes explicit state passing.
JavaScript regular expressions are embedded as hand-written matchers with
the same leftmost-match and greedy/backtracking behaviour on the inputs
considered; `String.prototype.toLowerCase` is modelled on the ASCII range
(all strings the code compares are already lower-case outside ASCII).
Network calls of the calendar backend are modelled as an oracle record
(`Backend`); floating-point scores in the event search are modelled as
exact rationals.
-/

deriving instance DecidableEq for Except

namespace LuCalendar

/-! ## Generic string helpers (JS string primitives) -/

/-- ASCII lower-casing of one character, as `String.prototype.toLowerCase`
acts on the ASCII range. -/
def lowerCh (c : Char) : Char :=
  if 'A' ≤ c ∧ c ≤ 'Z' then Char.ofNat (c.toNat + 32) else c

/-- ASCII upper-casing of one character, as `String.prototype.toUpperCase`
acts on the ASCII range. -/
def upperCh (c : Char) : Char :=
  if 'a' ≤ c ∧ c ≤ 'z' then Char.ofNat (c.toNat - 32) else c

/-- `s.toLowerCase()` (ASCII range). -/
def lowerStr (s : String) : String := String.mk (s.toList.map lowerCh)

/-- `s.toUpperCase()` (ASCII range). -/
def upperStr (s : String) : String := String.mk (s.toList.map upperCh)

/-- Whitespace test, the characters `\s` matches on the inputs considered. -/
def isWs (c : Char) : Bool := c == ' ' || c == '\t' || c == '\n' || c == '\r'

/-- JS word character (`\w` of a regular expression): ASCII letter, digit
or underscore. -/
def isWordCh (c : Char) : Bool :=
  ('a' ≤ c && c ≤ 'z') || ('A' ≤ c && c ≤ 'Z') || ('0' ≤ c && c ≤ '9') || c == '_'

/-- ASCII letter (the class `[A-Za-z]`). -/
def isAsciiLetter (c : Char) : Bool :=
  ('a' ≤ c && c ≤ 'z') || ('A' ≤ c && c ≤ 'Z')

/-- `s.trim()`: strip leading and trailing whitespace. -/
def trimStr (s : String) : String :=
  String.mk (((s.toList.dropWhile (fun c => isWs c)).reverse.dropWhile
    (fun c => isWs c)).reverse)

/-- Does `pat` occur at the start of `s` (character lists)? -/
def isPrefixCh : List Char → List Char → Bool
  | [], _ => true
  | _ :: _, [] => false
  | a :: as, b :: bs => a == b && isPrefixCh as bs

/-- Case-insensitive variant of `isPrefixCh` (regex `/…/i`). -/
def isPrefixCI : List Char → List Char → Bool
  | [], _ => true
  | _ :: _, [] => false
  | a :: as, b :: bs => lowerCh a == lowerCh b && isPrefixCI as bs

/-- Does `pat` occur anywhere in `s` (character lists)? -/
def containsList : List Char → List Char → Bool
  | [], pat => isPrefixCh pat []
  | c :: rest, pat => isPrefixCh pat (c :: rest) || containsList rest pat

/-- `s.includes(pat)` of JavaScript strings. -/
def containsSub (s pat : String) : Bool := containsList s.toList pat.toList

/-- Numeric value of a digit run (the effect of `parseInt` on a capture of
`\d+`). -/
def digitsVal (l : List Char) : Int :=
  Int.ofNat (l.foldl (fun acc c => acc * 10 + (c.toNat - '0'.toNat)) 0)

/-- Maximal leading digit run of a character list, with the rest. -/
def takeDigits (l : List Char) : List Char × List Char :=
  match l with
  | [] => ([], [])
  | c :: rest =>
    if c.isDigit then
      let (ds, r) := takeDigits rest
      (c :: ds, r)
    else ([], l)

/-- Maximal leading whitespace run of a character list, with the rest. -/
def takeWs (l : List Char) : List Char × List Char :=
  match l with
  | [] => ([], [])
  | c :: rest =>
    if isWs c then
      let (ws, r) := takeWs rest
      (c :: ws, r)
    else ([], l)

/-- `Number(str)` restricted to the shapes that occur here: a run of digits
parses to its value, the empty string parses to `0`, anything else is `NaN`
(`none`). -/
def numParse (s : String) : Option Int :=
  if s == "" then some 0
  else
    let (ds, rest) := takeDigits s.toList
    if ds ≠ [] ∧ rest = [] then some (digitsVal ds) else none

/-- JS truthiness of an optional string (`undefined` and `""` are falsy). -/
def truthyS : Option String → Bool
  | none => false
  | some s => !(s == "")

/-- JS truthiness of an optional number (`undefined` and `0` are falsy). -/
def truthyI : Option Int → Bool
  | none => false
  | some n => !(n == 0)

/-- `s.includes(c)` for a single character. -/
def containsCh (s : String) (c : Char) : Bool := s.toList.contains c

/-! ## dateUtils.js

A JS `Date` is modelled as a day number (days since the epoch; the epoch
day was a Thursday, so `getDay` is `(day + 4) mod 7`) together with the
milliseconds elapsed within that day.  The pair is kept normalised by the
smart constructor `JSDate.ofParts`. -/

structure JSDate where
  day : Int
  ms : Int
  deriving DecidableEq, Repr

def msPerDay : Int := 86400000

def msPerHour : Int := 3600000

/-- Build a `JSDate` from a day number and a (possibly overflowing)
millisecond offset, normalising the overflow into the day, exactly as JS
`setHours` rolls an out-of-range hour over into the date. -/
def JSDate.ofParts (day msOfDay : Int) : JSDate :=
  ⟨day + msOfDay.fdiv msPerDay, msOfDay.emod msPerDay⟩

/-- `Date.prototype.getDay` (0 = Sunday … 6 = Saturday). -/
def JSDate.getDay (d : JSDate) : Int := (d.day + 4).emod 7

/-- Millisecond timestamp of a `JSDate`. -/
def JSDate.toMs (d : JSDate) : Int := d.day * msPerDay + d.ms

/-- `JSDate` from a millisecond timestamp. -/
def msToJSDate (t : Int) : JSDate := ⟨t.fdiv msPerDay, t.emod msPerDay⟩

/-- The weekday table of `parseNextDay` (`dayMapping`), in source order. -/
def dayMapping : List (String × Int) :=
  [("lunedì", 1), ("lunedi", 1),
   ("martedì", 2), ("martedi", 2),
   ("mercoledì", 3), ("mercoledi", 3),
   ("giovedì", 4), ("giovedi", 4),
   ("venerdì", 5), ("venerdi", 5),
   ("sabato", 6),
   ("domenica", 0)]

/-- `parseNextDay` of dateUtils.js: resolve "prossimo <weekday>" relative
to `baseDate`. -/
def parseNextDay (text : String) (baseDate : JSDate) : JSDate :=
  match dayMapping.find? (fun p => containsSub text p.1) with
  | some p =>
    let currentDay := baseDate.getDay
    let d0 := (p.2 + 7 - currentDay).emod 7
    -- if we are already on the target weekday, go to next week
    let daysToAdd := if d0 = 0 then 7 else d0
    ⟨baseDate.day + daysToAdd, baseDate.ms⟩
  | none =>
    if containsSub text "settimana" then ⟨baseDate.day + 7, baseDate.ms⟩
    else baseDate

/-- The regex `tra\s+(\d+)\s+(giorn[oi]|settiman[ae])` at one position:
returns the captured amount and whether the unit starts with "giorn". -/
def traAt (l : List Char) : Option (Int × Bool) :=
  if isPrefixCh "tra".toList l then
    let rest0 := l.drop 3
    let (ws1, rest1) := takeWs rest0
    let (ds, rest2) := takeDigits rest1
    let (ws2, rest3) := takeWs rest2
    if ws1 ≠ [] ∧ ds ≠ [] ∧ ws2 ≠ [] then
      if isPrefixCh "giorn".toList rest3 then
        match rest3.drop 5 with
        | c :: _ => if c == 'o' || c == 'i' then some (digitsVal ds, true) else none
        | [] => none
      else if isPrefixCh "settiman".toList rest3 then
        match rest3.drop 8 with
        | c :: _ => if c == 'a' || c == 'e' then some (digitsVal ds, false) else none
        | [] => none
      else none
    else none
  else none

/-- Leftmost match of `tra\s+(\d+)\s+(giorn[oi]|settiman[ae])`. -/
def traScan : List Char → Option (Int × Bool)
  | [] => none
  | c :: rest =>
    match traAt (c :: rest) with
    | some r => some r
    | none => traScan rest

def traMatch (text : String) : Option (Int × Bool) := traScan text.toList

/-- `parseInDays` of dateUtils.js: resolve "tra N giorni/settimane". -/
def parseInDays (text : String) (baseDate : JSDate) : JSDate :=
  match traMatch text with
  | some (amount, isDays) =>
    if isDays then ⟨baseDate.day + amount, baseDate.ms⟩
    else ⟨baseDate.day + amount * 7, baseDate.ms⟩
  | none => baseDate

/-- `parseDateFromText` of dateUtils.js.  `jsP` models the host
`new Date(string)` parser used for the direct-parse fallback (returning
`none` when that parse yields an invalid date). -/
def parseDateFromText (jsP : String → Option JSDate) (dateText : String)
    (baseDate : JSDate) : JSDate :=
  let today : JSDate := ⟨baseDate.day, 0⟩
  let text := trimStr (lowerStr dateText)
  if text == "oggi" then today
  else if text == "domani" then ⟨today.day + 1, 0⟩
  else if text == "dopodomani" then ⟨today.day + 2, 0⟩
  else if containsSub text "prossimo" || containsSub text "prossima" then
    parseNextDay text today
  else if (traMatch text).isSome then
    parseInDays text today
  else
    match jsP dateText with
    | some d => d
    | none => baseDate

/-! ## Regex scanning helpers

A JavaScript regex match scans start positions left to right and returns
the first position where the pattern matches; each `…At` function below
decides a match anchored at one position (including greedy/backtracking
behaviour where it is observable). -/

/-- Leftmost-match scan: try the matcher at every start position, left to
right (the final, empty position included). -/
def scanFirst (f : List Char → Option α) : List Char → Option α
  | [] => f []
  | c :: rest =>
    match f (c :: rest) with
    | some r => some r
    | none => scanFirst f rest

/-- The tail `(\d{1,2})[:\.]?(\d{2})?` of the time regexes: hours capture
(greedily two digits) and minutes capture (`0` when the group is absent,
as `parseInt` is applied only to a present capture). -/
def hmMinutes (l : List Char) : Int :=
  let l2 := match l with
    | c :: rest => if c == ':' || c == '.' then rest else l
    | [] => l
  match l2 with
  | a :: b :: _ => if a.isDigit && b.isDigit then digitsVal [a, b] else 0
  | _ => 0

def hmDigits : List Char → Option (Int × Int)
  | [] => none
  | c1 :: rest1 =>
    if c1.isDigit then
      match rest1 with
      | c2 :: rest2 =>
        if c2.isDigit then some (digitsVal [c1, c2], hmMinutes rest2)
        else some (digitsVal [c1], hmMinutes rest1)
      | [] => some (digitsVal [c1], 0)
    else none

/-- One position of `alle (\d{1,2})[:\.]?(\d{2})?`. -/
def alleAt (l : List Char) : Option (Int × Int) :=
  if isPrefixCh "alle ".toList l then hmDigits (l.drop 5) else none

/-- Time formatting `hours + ":" + (minutes < 10 ? "0"+minutes : minutes)`. -/
def fmtHM (h m : Int) : String :=
  toString h ++ ":" ++ (if m < 10 then "0" ++ toString m else toString m)

/-- One position of `(\d+)\s*or[ae]` (an hour count such as "2 ore"). -/
def hourCountAt (l : List Char) : Option Int :=
  let (ds, rest) := takeDigits l
  if ds = [] then none
  else
    let (_, rest2) := takeWs rest
    if isPrefixCh "or".toList rest2 then
      match rest2.drop 2 with
      | c :: _ => if c == 'a' || c == 'e' then some (digitsVal ds) else none
      | [] => none
    else none

def hourCountMatch (s : String) : Option Int := scanFirst hourCountAt s.toList

/-- One position of `(\d+)\s*minut[oi]` (a minute count such as "30 minuti"). -/
def minuteCountAt (l : List Char) : Option Int :=
  let (ds, rest) := takeDigits l
  if ds = [] then none
  else
    let (_, rest2) := takeWs rest
    if isPrefixCh "minut".toList rest2 then
      match rest2.drop 5 with
      | c :: _ => if c == 'o' || c == 'i' then some (digitsVal ds) else none
      | [] => none
    else none

def minuteCountMatch (s : String) : Option Int := scanFirst minuteCountAt s.toList

/-- `\b` of a JS regex: between two (possibly absent) characters, exactly
one side is a word character. -/
def wordBoundary (prev next : Option Char) : Bool :=
  (match prev with | some c => isWordCh c | none => false) !=
  (match next with | some c => isWordCh c | none => false)

def weekdayAlts : List String :=
  ["lunedì", "martedì", "mercoledì", "giovedì", "venerdì", "sabato", "domenica"]

/-- One position of `\b(lunedì|…|domenica)\b` (the text is already
lower-case when this is used). -/
def weekdayAt (prev : Option Char) (l : List Char) : Option String :=
  weekdayAlts.findSome? (fun w =>
    if isPrefixCh w.toList l then
      if wordBoundary prev l.head? &&
         wordBoundary w.toList.getLast? (l.drop w.toList.length).head? then
        some w
      else none
    else none)

def weekdayScan : Option Char → List Char → Option String
  | prev, [] => weekdayAt prev []
  | prev, c :: rest =>
    match weekdayAt prev (c :: rest) with
    | some w => some w
    | none => weekdayScan (some c) rest

/-! ## commandPreprocessor.js -/

/-- One position of `per (oggi|domani|questa settimana)`, capture returned. -/
def perDateAt (l : List Char) : Option String :=
  if isPrefixCh "per oggi".toList l then some "oggi"
  else if isPrefixCh "per domani".toList l then some "domani"
  else if isPrefixCh "per questa settimana".toList l then some "questa settimana"
  else none

/-- One position of the separator `\s+e\s+poi\s+` (match length). -/
def sep1At (l : List Char) : Option Nat :=
  let (ws1, r1) := takeWs l
  if ws1 = [] then none else
  match r1 with
  | c :: r2 =>
    if lowerCh c == 'e' then
      let (ws2, r3) := takeWs r2
      if ws2 = [] then none else
      if isPrefixCI "poi".toList r3 then
        let (ws3, _) := takeWs (r3.drop 3)
        if ws3 = [] then none
        else some (ws1.length + 1 + ws2.length + 3 + ws3.length)
      else none
    else none
  | [] => none

/-- One position of the separator `,\s*poi\s+` (match length). -/
def sep2At (l : List Char) : Option Nat :=
  match l with
  | c :: r1 =>
    if c == ',' then
      let (ws1, r2) := takeWs r1
      if isPrefixCI "poi".toList r2 then
        let (ws2, _) := takeWs (r2.drop 3)
        if ws2 = [] then none else some (1 + ws1.length + 3 + ws2.length)
      else none
    else none
  | [] => none

/-- One position of the separator `;\s*` (match length). -/
def sep3At (l : List Char) : Option Nat :=
  match l with
  | c :: r1 => if c == ';' then some (1 + (takeWs r1).1.length) else none
  | [] => none

/-- Fuel-indexed worker of `splitByMatcher` (at least one character is
consumed per step, so fuel equal to the length of the string suffices;
the fuel-exhausted case is unreachable). -/
def splitByMatcherAux (matchAt : List Char → Option Nat) :
    Nat → List Char → List Char → List String
  | _, acc, [] => [String.mk acc.reverse]
  | 0, acc, l => [String.mk (acc.reverse ++ l)]
  | fuel + 1, acc, c :: rest =>
    match matchAt (c :: rest) with
    | some n =>
      if 0 < n then
        String.mk acc.reverse :: splitByMatcherAux matchAt fuel [] (rest.drop (n - 1))
      else splitByMatcherAux matchAt fuel (c :: acc) rest
    | none => splitByMatcherAux matchAt fuel (c :: acc) rest

/-- `String.prototype.split` with a regex separator: cut the string at each
leftmost, non-overlapping separator match. -/
def splitByMatcher (matchAt : List Char → Option Nat) (acc l : List Char) : List String :=
  splitByMatcherAux matchAt l.length acc l

structure DirectResponse where
  action : String
  deleteAll : Bool
  date : Option String
  deriving DecidableEq, Repr

structure DetectedEntities where
  specificTime : Option String
  hourModifier : Option Int
  minuteModifier : Option Int
  modifier : Option String
  specificDate : Option String
  weekday : Option String
  period : Option String
  deriving DecidableEq, Repr

def DetectedEntities.empty : DetectedEntities := ⟨none, none, none, none, none, none, none⟩

structure PreprocessMetadata where
  isSpecialCommand : Bool
  specialCommandType : Option String
  directResponse : Option DirectResponse
  hasTemporalContext : Bool
  hasMultipleActions : Bool
  subCommands : Option (List String)
  detectedEntities : DetectedEntities
  deriving DecidableEq, Repr

structure PreprocessedCommand where
  command : String
  metadata : PreprocessMetadata
  deriving DecidableEq, Repr

structure DateReferences where
  specificDate : Option String
  weekday : Option String
  period : Option String
  deriving DecidableEq, Repr

/-- `extractDateReferences` of commandPreprocessor.js (the argument is the
lower-cased command). -/
def extractDateReferences (text : String) : DateReferences :=
  let specificDate :=
    if containsSub text "oggi" then some "oggi"
    else if containsSub text "domani" then some "domani"
    else if containsSub text "dopodomani" then some "dopodomani"
    else none
  let weekday := weekdayScan none text.toList
  let period :=
    if containsSub text "questa settimana" then some "current_week"
    else if containsSub text "prossima settimana" then some "next_week"
    else if containsSub text "questo mese" then some "current_month"
    else none
  ⟨specificDate, weekday, period⟩

/-- `preprocessCommand` of commandPreprocessor.js. -/
def preprocessCommand (command : String) : PreprocessedCommand :=
  let lowerCommand := trimStr (lowerStr command)
  if lowerCommand == "elimina tutto" ||
     containsSub lowerCommand "elimina tutti gli eventi" then
    let dateOpt := scanFirst perDateAt lowerCommand.toList
    ⟨command,
     ⟨true, some "DELETE_ALL", some ⟨"DELETE_EVENT", true, dateOpt⟩,
      false, false, none, DetectedEntities.empty⟩⟩
  else
    let isTemporal := containsSub lowerCommand "sposta" ||
      containsSub lowerCommand "anticipa" || containsSub lowerCommand "posticipa"
    let specificTime :=
      if isTemporal then (scanFirst alleAt lowerCommand.toList).map (fun p => fmtHM p.1 p.2)
      else none
    let hourMod := if isTemporal then hourCountMatch lowerCommand else none
    let minuteMod := if isTemporal then minuteCountMatch lowerCommand else none
    -- the minute block overwrites a modifier set by the hour block
    let modifier :=
      if isTemporal then
        if minuteMod.isSome then some "minute"
        else if hourMod.isSome then some "hour"
        else none
      else none
    let hasMulti := containsSub lowerCommand " e poi " ||
      containsSub lowerCommand ", poi " || containsSub lowerCommand "; "
    let subCommands :=
      if hasMulti then
        if containsSub lowerCommand " e poi " then
          some (splitByMatcher sep1At [] command.toList)
        else if containsSub lowerCommand ", poi " then
          some (splitByMatcher sep2At [] command.toList)
        else some (splitByMatcher sep3At [] command.toList)
      else none
    let refs := extractDateReferences lowerCommand
    let hasRefs := refs.specificDate.isSome || refs.weekday.isSome || refs.period.isSome
    ⟨command,
     ⟨false, none, none, isTemporal || hasRefs, hasMulti, subCommands,
      ⟨specificTime, hourMod, minuteMod, modifier,
       refs.specificDate, refs.weekday, refs.period⟩⟩⟩

/-- `enrichCommand` of commandPreprocessor.js. -/
def enrichCommand (pc : PreprocessedCommand) : String :=
  if pc.metadata.isSpecialCommand && pc.metadata.directResponse.isSome then
    pc.command
  else if pc.metadata.hasTemporalContext &&
      truthyS pc.metadata.detectedEntities.specificTime then
    if containsSub pc.command " alle " then pc.command
    else pc.command ++ " alle " ++ pc.metadata.detectedEntities.specificTime.getD ""
  else pc.command

/-- The route guard of calendar.js: a special command with a direct
response is executed without any LLM call. -/
def bypassesLLM (m : PreprocessMetadata) : Bool :=
  m.isSpecialCommand && m.directResponse.isSome

/-! ## geminiService.js -/

/-- The `timeModification` object: `{type, direction, amount, unit}` for a
SHIFT, `{type, time}` for an EXACT move. -/
structure TimeModification where
  type : String
  direction : Option String
  amount : Option Int
  unit : Option String
  time : Option String
  deriving DecidableEq, Repr

def TimeModification.shift (direction : String) (amount : Int) : TimeModification :=
  ⟨"SHIFT", some direction, some amount, some "HOUR", none⟩

/-- Maximal leading ASCII-letter run (`[A-Za-z]+`), with the rest. -/
def takeLetters (l : List Char) : List Char × List Char :=
  match l with
  | [] => ([], [])
  | c :: rest =>
    if isAsciiLetter c then
      let (ls, r) := takeLetters rest
      (c :: ls, r)
    else ([], l)

/-- Tail of `alle\s+(\d{1,2})[:\.]?(\d{2})?` at one position. -/
def alleWsDigitsAt (l : List Char) : Option (Int × Int) :=
  if isPrefixCh "alle".toList l then
    let (ws, rest) := takeWs (l.drop 4)
    if ws = [] then none else hmDigits rest
  else none

/-- The `.+alle\s+…` part of the exact-move regex: `.` does not match a
newline, and the greedy `.+` makes the last matching "alle …" win. -/
def specTimeTail : List Char → Option (Int × Int)
  | [] => none
  | c :: rest =>
    if c == '\n' then none
    else
      match specTimeTail rest with
      | some r => some r
      | none => alleWsDigitsAt rest

/-- One position of `(sposta|posticipa|anticipa).+alle\s+(\d{1,2})[:\.]?(\d{2})?`. -/
def specificTimeAt (l : List Char) : Option (Int × Int) :=
  if isPrefixCh "sposta".toList l then specTimeTail (l.drop 6)
  else if isPrefixCh "posticipa".toList l then specTimeTail (l.drop 9)
  else if isPrefixCh "anticipa".toList l then specTimeTail (l.drop 8)
  else none

def specificTimeMatch (s : String) : Option (Int × Int) :=
  scanFirst specificTimeAt s.toList

/-- `extractTimeModification` of geminiService.js. -/
def extractTimeModification (command : String) : Option TimeModification :=
  let lowerCommand := lowerStr command
  if containsSub lowerCommand "posticipa" || containsSub lowerCommand "ritarda" ||
     containsSub lowerCommand "sposta" || containsSub lowerCommand "ora in avanti" ||
     containsSub lowerCommand "ore in avanti" then
    -- default of 1 hour when no digit count is present
    some (TimeModification.shift "FORWARD" ((hourCountMatch lowerCommand).getD 1))
  else if containsSub lowerCommand "anticipa" || containsSub lowerCommand "ora prima" ||
     containsSub lowerCommand "ore prima" then
    some (TimeModification.shift "BACKWARD" ((hourCountMatch lowerCommand).getD 1))
  else
    match specificTimeMatch lowerCommand with
    | some p => some ⟨"EXACT", none, none, none, some (fmtHM p.1 p.2)⟩
    | none => none

/-- An `attendees`-valued JSON field: either a scalar string or an array. -/
inductive AttVal where
  | scalar (s : String)
  | arr (l : List String)
  deriving DecidableEq, Repr

/-- JS truthiness of an optional attendees value (arrays are always
truthy, the empty string is not). -/
def truthyAtt : Option AttVal → Bool
  | none => false
  | some (.scalar s) => !(s == "")
  | some (.arr _) => true

/-- `if (!Array.isArray(x)) x = [x]`. -/
def coerceArr : AttVal → AttVal
  | .scalar s => .arr [s]
  | .arr l => .arr l

/-- The `parameters` object of a parsed LLM response, with both the
English and the Italian key spellings. -/
structure GeminiParams where
  title : Option String
  titolo : Option String
  description : Option String
  descrizione : Option String
  date : Option String
  data : Option String
  startTime : Option String
  ora_inizio : Option String
  endTime : Option String
  ora_fine : Option String
  attendees : Option AttVal
  partecipanti : Option AttVal
  timeModification : Option TimeModification
  query : Option String
  deriving DecidableEq, Repr

def GeminiParams.empty : GeminiParams :=
  ⟨none, none, none, none, none, none, none, none, none, none, none, none, none, none⟩

/-- A parsed LLM JSON response: nested form (`action` + `parameters`) or
flat Italian form (`azione` and flat fields). -/
structure ParsedResult where
  action : Option String
  azione : Option String
  parameters : Option GeminiParams
  riepilogo : Option String
  titolo : Option String
  descrizione : Option String
  data : Option String
  ora_inizio : Option String
  ora_fine : Option String
  partecipanti : Option AttVal
  deriving DecidableEq, Repr

def ParsedResult.empty : ParsedResult :=
  ⟨none, none, none, none, none, none, none, none, none, none⟩

/-- The normalized `parameters` of a `CanonicalAction`. -/
structure NormParams where
  title : Option String
  description : Option String
  date : Option String
  startTime : Option String
  endTime : Option String
  attendees : Option AttVal
  timeModification : Option TimeModification
  query : Option String
  maxResults : Option Int
  deriving DecidableEq, Repr

/-- The normalizer's output (the `CanonicalAction` of the pipeline). -/
structure NormResult where
  action : String
  parameters : NormParams
  deriving DecidableEq, Repr

/-- JS `a || b` on optional strings. -/
def jsOr (a b : Option String) : Option String := if truthyS a then a else b

/-- `if (a || b) { out = a || b }`: the field stays absent unless the
OR-value is truthy. -/
def jsOrField (a b : Option String) : Option String :=
  if truthyS (jsOr a b) then jsOr a b else none

/-- The flat-form action table (`actionMapping` keyed by lower-case
`azione`). -/
def flatActionMapping (s : String) : Option String :=
  if s == "crea_evento" then some "CREATE_EVENT"
  else if s == "modifica_evento" then some "UPDATE_EVENT"
  else if s == "visualizza_eventi" then some "VIEW_EVENTS"
  else if s == "elimina_evento" then some "DELETE_EVENT"
  else none

/-- The nested-form action table (`actionMapping` keyed by upper-cased
Italian phrases). -/
def actionPhraseMapping (s : String) : Option String :=
  if s == "CREA EVENTO" then some "CREATE_EVENT"
  else if s == "MODIFICA EVENTO" then some "UPDATE_EVENT"
  else if s == "VISUALIZZA EVENTI" then some "VIEW_EVENTS"
  else if s == "ELIMINA EVENTO" then some "DELETE_EVENT"
  else none

def replaceFirstCh (pat rep : Char) : List Char → List Char
  | [] => []
  | c :: rest => if c == pat then rep :: rest else c :: replaceFirstCh pat rep rest

/-- `s.replace(' ', '_')`: only the first space is replaced. -/
def replaceFirstSpace (s : String) : String :=
  String.mk (replaceFirstCh ' ' '_' s.toList)

/-- The four canonical action labels. -/
def isCanonical (s : String) : Bool :=
  s == "CREATE_EVENT" || s == "UPDATE_EVENT" || s == "VIEW_EVENTS" || s == "DELETE_EVENT"

/-- `normalizeResponse` of geminiService.js. -/
def normalizeResponse (parsedResult : ParsedResult) (originalCommand : String) :
    Except String NormResult :=
  if !truthyS parsedResult.action ∧ truthyS parsedResult.azione then
    -- flat Italian shape: map `azione` through the dedicated table
    Except.ok
      ⟨(flatActionMapping (lowerStr (parsedResult.azione.getD ""))).getD "CREATE_EVENT",
       ⟨jsOr parsedResult.riepilogo parsedResult.titolo,
        parsedResult.descrizione,
        parsedResult.data,
        parsedResult.ora_inizio,
        parsedResult.ora_fine,
        some (if truthyAtt parsedResult.partecipanti then
                parsedResult.partecipanti.getD (.arr [])
              else .arr []),
        none, none, none⟩⟩
  else if !truthyS parsedResult.action then
    Except.error "Campo \"action\" mancante nella risposta"
  else
    let action0 := upperStr (parsedResult.action.getD "")
    let action :=
      match actionPhraseMapping action0 with
      | some a => a
      | none =>
        if !containsSub action0 "_" then replaceFirstSpace (upperStr action0)
        else action0
    let p := parsedResult.parameters.getD GeminiParams.empty
    Except.ok
      ⟨action,
       ⟨jsOrField p.title p.titolo,
        jsOrField p.description p.descrizione,
        jsOrField p.date p.data,
        jsOrField p.startTime p.ora_inizio,
        jsOrField p.endTime p.ora_fine,
        (if truthyAtt p.attendees || truthyAtt p.partecipanti then
           some (coerceArr (if truthyAtt p.attendees then p.attendees.getD (.arr [])
                            else p.partecipanti.getD (.arr [])))
         else none),
        (match p.timeModification with
         | some tm => some tm
         | none =>
           -- only when no explicit times were supplied by the model
           if !truthyS p.startTime ∧ !truthyS p.endTime then
             extractTimeModification originalCommand
           else none),
        (if truthyS p.query then p.query else none),
        (if action == "VIEW_EVENTS" then some 10 else none)⟩⟩

/-! ### The local fallback parser -/

structure LocalParams where
  title : Option String
  attendees : Option (List String)
  startTime : Option String
  endTime : Option String
  date : Option String
  timeModification : Option TimeModification
  deleteAll : Bool
  maxResults : Option Int
  deriving DecidableEq, Repr

structure LocalResult where
  action : String
  parameters : LocalParams
  deriving DecidableEq, Repr

/-- One position of `(?:riunione|appuntamento) con ([A-Za-z]+)(?:\s|$)`,
case-insensitive, capture returned as it occurs in the text. -/
def titleConAt (l : List Char) : Option String :=
  let afterKw : Option (List Char) :=
    if isPrefixCI "riunione con ".toList l then some (l.drop 13)
    else if isPrefixCI "appuntamento con ".toList l then some (l.drop 17)
    else none
  match afterKw with
  | some rest =>
    let (letters, rest2) := takeLetters rest
    if letters = [] then none
    else
      match rest2 with
      | [] => some (String.mk letters)
      | c :: _ => if isWs c then some (String.mk letters) else none
  | none => none

def titleConMatch (s : String) : Option String := scanFirst titleConAt s.toList

def allWs : List Char → Bool
  | [] => true
  | c :: rest => isWs c && allWs rest

/-- The `(\d{2})?\s*$` tail of the trailing-time regex (group tried
present first, then absent). -/
def timeEndGrp (h : Int) (rest : List Char) : Option (Int × Int) :=
  let present : Option (Int × Int) :=
    match rest with
    | a :: b :: rest2 =>
      if a.isDigit && b.isDigit && allWs rest2 then some (h, digitsVal [a, b]) else none
    | _ => none
  match present with
  | some r => some r
  | none => if allWs rest then some (h, 0) else none

/-- The `[:\.]?…` tail (separator tried present first, then absent). -/
def timeEndSep (h : Int) (rest : List Char) : Option (Int × Int) :=
  let withSep : Option (Int × Int) :=
    match rest with
    | c :: rest2 => if c == ':' || c == '.' then timeEndGrp h rest2 else none
    | [] => none
  match withSep with
  | some r => some r
  | none => timeEndGrp h rest

/-- One position of `(\d{1,2})[:\.]?(\d{2})?\s*$` (hours capture greedy). -/
def timeEndAt (l : List Char) : Option (Int × Int) :=
  match l with
  | c1 :: rest1 =>
    if c1.isDigit then
      let two : Option (Int × Int) :=
        match rest1 with
        | c2 :: rest2 =>
          if c2.isDigit then timeEndSep (digitsVal [c1, c2]) rest2 else none
        | [] => none
      match two with
      | some r => some r
      | none => timeEndSep (digitsVal [c1]) rest1
    else none
  | [] => none

def timeEndMatch (s : String) : Option (Int × Int) := scanFirst timeEndAt s.toList

/-- Time formatting of the local parser: `hours + ":" + (minutes || "00")`. -/
def fmtLocalTime (h m : Int) : String :=
  toString h ++ ":" ++ (if m == 0 then "00" else toString m)

/-- `parseCommandLocally` of geminiService.js.  The surrounding
`try/catch` (absolute fallback `{VIEW_EVENTS, maxResults: 5}`) is
unreachable in the embedding, which throws nothing. -/
def parseCommandLocally (command : String) : LocalResult :=
  let lowerCommand := lowerStr command
  if containsSub lowerCommand "elimina tutto" then
    ⟨"DELETE_EVENT", ⟨none, none, none, none, some "oggi", none, true, none⟩⟩
  else
    let titleAtt : Option String × Option (List String) :=
      if containsSub lowerCommand "riunione con" ||
         containsSub lowerCommand "appuntamento con" then
        match titleConMatch command with
        | some name => (some ("Riunione con " ++ trimStr name), some [trimStr name])
        | none => (none, none)
      else (some "Nuovo evento", none)
    let times : Option String × Option String :=
      match timeEndMatch command with
      | some (h, m) => (some (fmtLocalTime h m), some (fmtLocalTime ((h + 1).emod 24) m))
      | none => (none, none)
    let date :=
      if containsSub lowerCommand "oggi" then some "oggi"
      else if containsSub lowerCommand "domani" then some "domani"
      else none
    let tm := extractTimeModification command
    let action :=
      if containsSub lowerCommand "crea" then "CREATE_EVENT"
      else if containsSub lowerCommand "mostra" then "VIEW_EVENTS"
      else if containsSub lowerCommand "modifica" || containsSub lowerCommand "sposta" ||
        containsSub lowerCommand "anticipa" || containsSub lowerCommand "posticipa" then
        "UPDATE_EVENT"
      else if containsSub lowerCommand "elimina" then "DELETE_EVENT"
      else "VIEW_EVENTS"
    ⟨action, ⟨titleAtt.1, titleAtt.2, times.1, times.2, date, tm, false, none⟩⟩

/-! ## calendarService.js

Calendar events travel as `CalEvent` (instants in epoch milliseconds,
attendee email lists); each network round-trip of the Google Calendar
client is one call of a `Backend` oracle field.  The process-wide
`lastHandledEventContext` variable is threaded explicitly: the stateful
operations take the current context and return the new one. -/

structure CalEvent where
  id : String
  summary : String
  description : String
  startMs : Int
  endMs : Int
  attendees : List String
  htmlLink : String
  deriving DecidableEq, Repr

/-- The parameters of an `events.list` call. -/
structure ListQuery where
  timeMin : Int
  timeMax : Int
  maxResults : Option Int
  q : Option String
  singleEvents : Bool
  orderBy : Option String
  deriving DecidableEq, Repr

structure InsertResponse where
  id : String
  htmlLink : String
  deriving DecidableEq, Repr

/-- The calendar backend as an oracle of responses. -/
structure Backend where
  list : ListQuery → List CalEvent
  get : String → Option CalEvent
  insert : CalEvent → InsertResponse
  update : String → CalEvent → InsertResponse

/-- `lastHandledEventContext`. -/
structure EventContext where
  id : Option String
  title : Option String
  timestamp : Option Int
  deriving DecidableEq, Repr

/-- `updateEventContext` of calendarService.js: overwrite the context only
when both the id and the title are truthy. -/
def updateEventContext (ctx : EventContext) (eventId eventTitle : String)
    (nowMs : Int) : EventContext :=
  if !(eventId == "") && !(eventTitle == "") then ⟨some eventId, some eventTitle, some nowMs⟩
  else ctx

/-- `getLastEventIdFromContext` of calendarService.js (5-minute validity). -/
def getLastEventIdFromContext (ctx : EventContext) (nowMs : Int) : Option String :=
  match ctx.id, ctx.timestamp with
  | some i, some t =>
    if !(i == "") && !(t == 0) && decide (nowMs - t < 5 * 60 * 1000) then some i else none
  | _, _ => none

/-- `prepareAttendees` of calendarService.js. -/
def prepareAttendees (attendees : Option AttVal) : List String :=
  if !truthyAtt attendees then []
  else
    let attendeesList := match attendees.getD (.arr []) with
      | .scalar s => [s]
      | .arr l => l
    attendeesList.map (fun email =>
      if !(email == "") && !(containsCh email '@') then email ++ "@example.com" else email)

/-- One position of a single-character separator (for `split(':')`). -/
def chSepAt (sep : Char) (l : List Char) : Option Nat :=
  match l with
  | c :: _ => if c == sep then some 1 else none
  | [] => none

/-- `Number` parsing of one `HH:MM` component pair (`split(':')` then
`map(Number)`, `none` for a `NaN` component). -/
def hhmmParts (t : String) : Option (Int × Int) :=
  let parts := splitByMatcher (chSepAt ':') [] t.toList
  match numParse (parts.headD ""),
        (match parts with | _ :: p2 :: _ => numParse p2 | _ => none) with
  | some h, some m => some (h, m)
  | _, _ => none

/-- `setHours(h, m, 0, 0)` on an epoch-millisecond instant (an
out-of-range hour rolls over into the date, as in JS). -/
def setHM (t : Int) (h m : Int) : Int :=
  msPerDay * (t.fdiv msPerDay) + h * msPerHour + m * 60000

/-- `prepareDateTime` of calendarService.js. -/
def prepareDateTime (jsP : String → Option JSDate) (date : Option String)
    (time : Option String) (nowDate : JSDate) : JSDate :=
  let baseDate := match date with
    | some s => parseDateFromText jsP s nowDate
    | none => nowDate
  if truthyS time then
    match hhmmParts ((time.getD "")) with
    | some (hv, mv) => JSDate.ofParts baseDate.day (hv * msPerHour + mv * 60000)
    | none => baseDate
  else baseDate

/-- `handleTimeModification` of calendarService.js, returning the shifted
`(start, end)` pair it writes into the updated event.  (The claims using
it always supply `amount`; an absent amount is read as `0` here where JS
would poison the dates with `NaN`.) -/
def handleTimeModification (timeModification : TimeModification)
    (originalStartMs originalEndMs : Int) : Int × Int :=
  let shiftMs0 : Int :=
    if timeModification.unit == some "HOUR" then (timeModification.amount.getD 0) * msPerHour
    else if timeModification.unit == some "MINUTE" then (timeModification.amount.getD 0) * 60000
    else 0
  let shiftMs := if timeModification.direction == some "BACKWARD" then -shiftMs0 else shiftMs0
  (originalStartMs + shiftMs, originalEndMs + shiftMs)

/-! ### findEventByTitle -/

/-- One position of a whitespace run (the separator of `split(/\s+/)`). -/
def wsRunAt (l : List Char) : Option Nat :=
  let ws := (takeWs l).1
  if ws = [] then none else some ws.length

/-- One position of `con\s+` (match length). -/
def removeConAt (l : List Char) : Option Nat :=
  if isPrefixCh "con".toList l then
    let ws := (takeWs (l.drop 3)).1
    if ws = [] then none else some (3 + ws.length)
  else none

/-- Delete the first (leftmost) match of a pattern, `s.replace(re, '')`. -/
def removeFirstMatch (matchAt : List Char → Option Nat) : List Char → List Char
  | [] => []
  | c :: rest =>
    match matchAt (c :: rest) with
    | some n => (c :: rest).drop n
    | none => c :: removeFirstMatch matchAt rest

def removeConWs (s : String) : String := String.mk (removeFirstMatch removeConAt s.toList)

/-- The global matches of `\b([A-Za-z]+)\b`: maximal ASCII-letter runs
whose neighbours on both sides are non-word characters (or the ends). -/
def personRunsAux (prevNonRun : Option Char) (run : List Char) :
    List Char → List String
  | [] =>
    match run with
    | [] => []
    | _ =>
      if (match prevNonRun with | none => true | some c => !isWordCh c) then
        [String.mk run.reverse]
      else []
  | c :: rest =>
    if isAsciiLetter c then personRunsAux prevNonRun (c :: run) rest
    else
      let emitted :=
        match run with
        | [] => []
        | _ =>
          if (match prevNonRun with | none => true | some c' => !isWordCh c') &&
             !isWordCh c then
            [String.mk run.reverse]
          else []
      emitted ++ personRunsAux (some c) [] rest

def personMatches (s : String) : List String := personRunsAux none [] s.toList

/-- The search-variant list built by `findEventByTitle` from the
lower-cased search title. -/
def searchVariants (searchTitle : String) : List String :=
  let searchWords := splitByMatcher wsRunAt [] searchTitle.toList
  let base := [searchTitle,
               removeConWs searchTitle,
               (if searchWords.length > 1 then searchWords.headD "" else ""),
               (if searchWords.length > 1 then (searchWords.getLast?).getD "" else "")]
  let filtered := base.filter (fun v => v.length > 0)
  let persons := (personMatches searchTitle).filter (fun name =>
    name.length > 2 &&
    !(name == "con" || name == "alle" || name == "del" || name == "di"))
  filtered ++ persons

/-- An exact rational score value, kept as an unnormalised fraction (the
denominators in use are positive).  The JS floating-point scores of
`findEventByTitle` are modelled by this exact arithmetic: every comparison
the code performs is between sums of terms `20 + 30·(len ratio)` and
integer bonuses, where the exact and the float comparison agree. -/
structure Score where
  num : Int
  den : Int
  deriving DecidableEq, Repr

def Score.ofInt (n : Int) : Score := ⟨n, 1⟩

def Score.add (x y : Score) : Score := ⟨x.num * y.den + y.num * x.den, x.den * y.den⟩

/-- Strict comparison of two scores (cross multiplication; the
denominators in use are positive). -/
def Score.lt (x y : Score) : Bool := decide (x.num * y.den < y.num * x.den)

/-- The score `findEventByTitle` assigns one candidate event: exact title
match 100; otherwise 20 + 30·(variant length / search-title length) per
variant contained in the event title, plus a recency bonus of
(3 − daysAway)·10 inside a 3-day window. -/
def scoreEvent (searchTitle : String) (variants : List String) (nowMs : Int)
    (e : CalEvent) : Score :=
  let eventTitle := lowerStr e.summary
  if eventTitle == searchTitle then Score.ofInt 100
  else
    let base : Score := variants.foldl
      (fun acc v =>
        if containsSub eventTitle v then
          -- 20 + (v.length / searchTitle.length) * 30
          acc.add ⟨20 * (searchTitle.length : Int) + 30 * (v.length : Int),
                   (searchTitle.length : Int)⟩
        else acc) (Score.ofInt 0)
    let daysAway : Int := ((nowMs - e.startMs).fdiv msPerDay).natAbs
    if daysAway < 3 then base.add (Score.ofInt ((3 - daysAway) * 10)) else base

/-- The best-match fold (first strictly greater score wins). -/
def bestOf (searchTitle : String) (variants : List String) (nowMs : Int)
    (items : List CalEvent) : Option CalEvent × Score :=
  items.foldl
    (fun st e =>
      let score := scoreEvent searchTitle variants nowMs e
      if Score.lt st.2 score then (some e, score) else st)
    (none, Score.ofInt 0)

def notFoundMsg (title : String) : String :=
  "Evento \"" ++ title ++ "\" non trovato. Prova a specificare un titolo più preciso."

/-- The candidate window of `findEventByTitle`: two weeks back to one
month ahead, at most 50 events. -/
def findWindowQuery (nowMs : Int) : ListQuery :=
  ⟨nowMs - 14 * msPerDay, nowMs + 30 * msPerDay, some 50, none, true, some "startTime"⟩

/-- The filter of the fallback-of-last-resort: events starting in
[today 00:00, day-after-tomorrow 00:00) whose title contains "riunione"
("today" is the day boundary derived from `nowMs`; time zones idealised
away). -/
def riunioneTodayFilter (nowMs : Int) (e : CalEvent) : Bool :=
  let todayStart := msPerDay * (nowMs.fdiv msPerDay)
  decide (todayStart ≤ e.startMs) && decide (e.startMs < todayStart + 2 * msPerDay) &&
  containsSub (lowerStr e.summary) "riunione"

/-- `findEventByTitle` of calendarService.js.  The candidate window is the
backend's answer to the two-weeks-back/one-month-ahead list call. -/
def findEventByTitle (b : Backend) (title : String) (nowMs : Int) :
    Except String String :=
  let items := b.list (findWindowQuery nowMs)
  if items.isEmpty then
    Except.error "Nessun evento trovato per il periodo ricercato"
  else
    let searchTitle := lowerStr title
    let variants := searchVariants searchTitle
    let best := bestOf searchTitle variants nowMs items
    if best.1.isSome && Score.lt (Score.ofInt 20) best.2 then
      Except.ok ((best.1.map CalEvent.id).getD "")
    else if containsSub searchTitle "riunione" && !containsSub searchTitle "con" then
      let recentMeetings := items.filter (riunioneTodayFilter nowMs)
      if recentMeetings.length == 1 then
        match recentMeetings with
        | m :: _ => Except.ok m.id
        | [] => Except.error (notFoundMsg title)
      else Except.error (notFoundMsg title)
    else Except.error (notFoundMsg title)

/-- `findMostRecentEventByType` of calendarService.js (stable sort by
distance from now, as the modern-JS `Array.prototype.sort`). -/
def findMostRecentEventByType (b : Backend) (eventType : String) (nowMs : Int) :
    Except String String :=
  let items := b.list
    ⟨nowMs - 3 * msPerDay, nowMs + 3 * msPerDay, some 10, none, true, some "startTime"⟩
  if items.isEmpty then Except.error "Nessun evento trovato nel periodo corrente"
  else
    let filteredEvents := items.filter (fun e =>
      containsSub (lowerStr e.summary) (lowerStr eventType))
    match filteredEvents with
    | [] => Except.error ("Nessun evento di tipo \"" ++ eventType ++ "\" trovato")
    | _ =>
      let sorted := filteredEvents.mergeSort (fun a b =>
        decide ((a.startMs - nowMs).natAbs ≤ (b.startMs - nowMs).natAbs))
      match sorted with
      | m :: _ => Except.ok m.id
      | [] => Except.error ("Nessun evento di tipo \"" ++ eventType ++ "\" trovato")

/-! ### createEvent / updateEvent -/

structure ActionResult where
  success : Bool
  message : String
  eventId : Option String
  eventLink : Option String
  potentialDuplicate : Bool
  existingEventId : Option String
  deriving DecidableEq, Repr

structure CreateParams where
  title : Option String
  description : Option String
  date : Option String
  startTime : Option String
  endTime : Option String
  attendees : Option AttVal
  deriving DecidableEq, Repr

structure UpdateParams where
  eventId : Option String
  title : Option String
  description : Option String
  date : Option String
  startTime : Option String
  endTime : Option String
  timeModification : Option TimeModification
  hoursToShift : Option Int
  attendees : Option (List String)
  attendeesAction : Option String
  deriving DecidableEq, Repr

def UpdateParams.empty : UpdateParams :=
  ⟨none, none, none, none, none, none, none, none, none, none⟩

/-- `createEvent` of calendarService.js.  The context is returned
unchanged on every path, as the source never touches it here. -/
def createEvent (b : Backend) (jsP : String → Option JSDate) (ctx : EventContext)
    (params : CreateParams) (nowMs : Int) : Except String ActionResult × EventContext :=
  let nowDate := msToJSDate nowMs
  let startDateTime := prepareDateTime jsP params.date params.startTime nowDate
  let startMs := startDateTime.toMs
  let endMs :=
    if truthyS params.endTime then (prepareDateTime jsP params.date params.endTime nowDate).toMs
    else startMs + msPerHour
  -- duplicate check in a 5-minute window
  let existingEvents := b.list ⟨startMs, startMs + 5 * 60000, none, params.title, false, none⟩
  match existingEvents with
  | e0 :: _ =>
    (Except.ok ⟨false, "Sembra che esista già un evento simile in questo orario",
      none, none, true, some e0.id⟩, ctx)
  | [] =>
    let event : CalEvent :=
      ⟨"", (if truthyS params.title then params.title.getD "" else "Nuovo evento"),
       params.description.getD "", startMs, endMs, prepareAttendees params.attendees, ""⟩
    let resp := b.insert event
    (Except.ok ⟨true, "Evento creato con successo", some resp.id, some resp.htmlLink,
      false, none⟩, ctx)

/-- The outer catch of `updateEvent` re-throws with this prefix. -/
def updErr (msg : String) : String := "Impossibile aggiornare l\x27evento: " ++ msg

/-- The event-id resolution of `updateEvent`: explicit id, else the
context, else search by title (with the riunione/meeting retry). -/
def resolveUpdateEventId (b : Backend) (ctx : EventContext) (params : UpdateParams)
    (nowMs : Int) : Except String (Option String) :=
  let eid0 : Option String :=
    if truthyS params.eventId then params.eventId else getLastEventIdFromContext ctx nowMs
  if eid0.isNone && truthyS params.title then
    match findEventByTitle b (params.title.getD "") nowMs with
    | Except.ok i => Except.ok (some i)
    | Except.error searchMsg =>
      if containsSub (params.title.getD "") "riunione" ||
         containsSub (lowerStr (params.title.getD "")) "meeting" then
        match findMostRecentEventByType b "riunione" nowMs with
        | Except.ok i => Except.ok (some i)
        | Except.error _ =>
          Except.error ("Impossibile trovare l\x27evento da modificare: " ++ searchMsg)
      else Except.error searchMsg
  else Except.ok eid0

/-- The time-update precedence chain of `updateEvent`:
timeModification > hoursToShift > explicit startTime/endTime > date. -/
def updateEventTimes (jsP : String → Option JSDate) (params : UpdateParams)
    (originalStart originalEnd nowMs : Int) : Except String (Int × Int) :=
  let originalDuration := originalEnd - originalStart
  match params.timeModification with
  | some tm => Except.ok (handleTimeModification tm originalStart originalEnd)
  | none =>
    if truthyI params.hoursToShift then
      let h := params.hoursToShift.getD 0
      Except.ok (originalStart + h * msPerHour, originalEnd + h * msPerHour)
    else if truthyS params.startTime then
      match hhmmParts (params.startTime.getD "") with
      | some (hv, mv) =>
        let ns := setHM originalStart hv mv
        let ne0 := ns + originalDuration
        if truthyS params.endTime then
          match hhmmParts (params.endTime.getD "") with
          | some (eh, em) =>
            let ne1 := setHM ne0 eh em
            -- an end before the start is pushed to the next day
            Except.ok (ns, if ne1 ≤ ns then ne1 + msPerDay else ne1)
          | none => Except.error "Invalid time value"
        else Except.ok (ns, ne0)
      | none => Except.error "Invalid time value"
    else if truthyS params.date then
      let targetDate := parseDateFromText jsP (params.date.getD "") (msToJSDate nowMs)
      -- keep the original time of day (down to seconds) on the new date
      let ns := targetDate.day * msPerDay +
        1000 * ((originalStart.emod msPerDay).fdiv 1000) + targetDate.ms.emod 1000
      let daysDiff := (ns - originalStart).fdiv msPerDay
      Except.ok (ns, originalEnd + daysDiff * msPerDay)
    else Except.ok (originalStart, originalEnd)

/-- The attendee handling of `updateEvent` (ADD merges with
deduplication by address, otherwise wholesale replacement; an empty list
keeps the existing attendees). -/
def updateEventAttendees (params : UpdateParams) (existing : CalEvent) : List String :=
  match params.attendees with
  | some l =>
    if l.length > 0 then
      if params.attendeesAction == some "ADD" then
        let newAttendees := l.filter (fun email => !(existing.attendees.contains email))
        existing.attendees ++ prepareAttendees (some (.arr newAttendees))
      else prepareAttendees (some (.arr l))
    else existing.attendees
  | none => existing.attendees

/-- The final title an update stores: `params.title || existingEvent.summary`. -/
def updateEventFinalTitle (params : UpdateParams) (existing : CalEvent) : String :=
  if truthyS params.title then params.title.getD "" else existing.summary

/-- `updateEvent` of calendarService.js. -/
def updateEvent (b : Backend) (jsP : String → Option JSDate) (ctx : EventContext)
    (params : UpdateParams) (nowMs : Int) : Except String ActionResult × EventContext :=
  match resolveUpdateEventId b ctx params nowMs with
  | Except.error e => (Except.error (updErr e), ctx)
  | Except.ok none =>
    (Except.error (updErr "ID evento non specificato e impossibile trovare evento dal titolo"),
     ctx)
  | Except.ok (some eid) =>
    match b.get eid with
    | none => (Except.error (updErr "Not Found"), ctx)  -- a failed events.get rejects
    | some existing =>
      let summary1 := updateEventFinalTitle params existing
      let description1 := params.description.getD existing.description
      match updateEventTimes jsP params existing.startMs existing.endMs nowMs with
      | Except.error e => (Except.error (updErr e), ctx)
      | Except.ok (ns, ne) =>
        let updatedEvent : CalEvent :=
          ⟨existing.id, summary1, description1, ns, ne,
           updateEventAttendees params existing, existing.htmlLink⟩
        let resp := b.update eid updatedEvent
        -- the context is refreshed after the successful update call
        let ctx2 := updateEventContext ctx resp.id updatedEvent.summary nowMs
        (Except.ok ⟨true, "Evento aggiornato con successo", some resp.id,
          some resp.htmlLink, false, none⟩, ctx2)

/-! ## Theorems for the claims -/

/-- C7: applying a SHIFT time modification whose direction is FORWARD or
BACKWARD and whose unit is HOUR or MINUTE during an update moves the start
and the end of the event by the same signed amount of milliseconds
(positive for FORWARD, negative for BACKWARD), so the duration is
preserved. -/
theorem C7_shift_preserves_duration (s e a : Int) (d u : String)
    (hd : d = "FORWARD" ∨ d = "BACKWARD") (hu : u = "HOUR" ∨ u = "MINUTE")
    (hse : s < e) (ha : 0 < a) :
    (handleTimeModification ⟨"SHIFT", some d, some a, some u, none⟩ s e).1 =
      s + (if d = "FORWARD" then 1 else -1) * a *
        (if u = "HOUR" then msPerHour else 60000) ∧
    (handleTimeModification ⟨"SHIFT", some d, some a, some u, none⟩ s e).2 =
      e + (if d = "FORWARD" then 1 else -1) * a *
        (if u = "HOUR" then msPerHour else 60000) ∧
    (handleTimeModification ⟨"SHIFT", some d, some a, some u, none⟩ s e).2 -
      (handleTimeModification ⟨"SHIFT", some d, some a, some u, none⟩ s e).1 = e - s := by
  rcases hd with rfl | rfl <;> rcases hu with rfl | rfl <;>
    simp [handleTimeModification]

/-- C7 witness: {SHIFT, FORWARD, 1, HOUR} on a 15:00/16:00 event yields
16:00/17:00 (times as milliseconds from midnight). -/
theorem C7_witness :
    (54000000 : Int) < 57600000 ∧ (0 : Int) < 1 ∧
    (handleTimeModification ⟨"SHIFT", some "FORWARD", some 1, some "HOUR", none⟩
        54000000 57600000).1 =
      54000000 + (if ("FORWARD" : String) = "FORWARD" then 1 else -1) * 1 *
        (if ("HOUR" : String) = "HOUR" then msPerHour else 60000) ∧
    handleTimeModification ⟨"SHIFT", some "FORWARD", some 1, some "HOUR", none⟩
        54000000 57600000 = (57600000, 61200000) :=
  ⟨by decide, by decide,
   (C7_shift_preserves_duration 54000000 57600000 1 "FORWARD" "HOUR"
     (Or.inl rfl) (Or.inl rfl) (by decide) (by decide)).1,
   by decide⟩

/-- C10 (amended): `prepareAttendees` returns one entry per input
attendee, where a non-empty entry containing no '@' becomes
entry + "@example.com" and any other entry passes through unchanged; a
non-empty scalar is wrapped into a one-element list; an absent input — and,
by JS falsiness, an empty-string scalar — yields the empty list. -/
theorem C10_prepareAttendees (l : List String) (s : String) (hs : s ≠ "") :
    prepareAttendees none = [] ∧
    prepareAttendees (some (.scalar "")) = [] ∧
    prepareAttendees (some (.scalar s)) =
      [if s ≠ "" ∧ containsCh s '@' = false then s ++ "@example.com" else s] ∧
    prepareAttendees (some (.arr l)) =
      l.map (fun e => if e ≠ "" ∧ containsCh e '@' = false then e ++ "@example.com" else e) := by
  have hs' : (s == "") = false := by simpa using hs
  refine ⟨rfl, rfl, ?_, ?_⟩
  · by_cases hc : containsCh s '@' = true
    · simp [prepareAttendees, truthyAtt, hs', hc, hs]
    · simp only [Bool.not_eq_true] at hc
      simp [prepareAttendees, truthyAtt, hs', hc, hs]
  · simp only [prepareAttendees, truthyAtt, Bool.not_true, Bool.false_eq_true,
      if_false, Option.getD_some]
    apply List.map_congr_left
    intro e _
    by_cases he : (e == "") = true
    · have he' : e = "" := by simpa using he
      simp [he, he']
    · have he' : e ≠ "" := by simpa using he
      by_cases hc : containsCh e '@' = true
      · simp [he, he', hc]
      · simp only [Bool.not_eq_true] at hc
        simp [he, he', hc]

/-- C10 witness: a bare name gains the default domain, an address with '@'
passes through. -/
theorem C10_witness :
    ("Mario" : String) ≠ "" ∧
    prepareAttendees (some (.arr ["Mario", "a@b.c"])) = ["Mario@example.com", "a@b.c"] := by
  have h := (C10_prepareAttendees ["Mario", "a@b.c"] "Mario" (by decide)).2.2.2
  refine ⟨by decide, ?_⟩
  rw [h]
  decide

/-- C10 counterexample: the empty attendee string contains no '@' yet
passes through unchanged (JS falsiness), instead of becoming
"@example.com" as the claim requires. -/
theorem C10_counterexample :
    prepareAttendees (some (.arr [""])) = [""] ∧
    containsCh "" '@' = false ∧ ("" : String) ≠ "@example.com" := by decide

/-- C4: the local fallback parser on
"Crea una riunione con Mario domani alle 15" yields exactly CREATE_EVENT
with title "Riunione con Mario", attendees ["Mario"], date "domani",
startTime "15:00" and endTime "16:00". -/
theorem C4_local_parse_crea_riunione :
    parseCommandLocally "Crea una riunione con Mario domani alle 15" =
      ⟨"CREATE_EVENT",
       ⟨some "Riunione con Mario", some ["Mario"], some "15:00", some "16:00",
        some "domani", none, false, none⟩⟩ := by decide

/-- C5 (amended): for every command whose lower-cased text does not
contain "elimina tutto", the local parser classifies the action by keyword
containment in the order: "crea" → CREATE_EVENT, else "mostra" →
VIEW_EVENTS, else any of "modifica"/"sposta"/"anticipa"/"posticipa" →
UPDATE_EVENT, else "elimina" → DELETE_EVENT, else VIEW_EVENTS. -/
theorem C5_local_action_priority (command : String)
    (h : containsSub (lowerStr command) "elimina tutto" = false) :
    (parseCommandLocally command).action =
      (if containsSub (lowerStr command) "crea" then "CREATE_EVENT"
       else if containsSub (lowerStr command) "mostra" then "VIEW_EVENTS"
       else if containsSub (lowerStr command) "modifica" ||
         containsSub (lowerStr command) "sposta" ||
         containsSub (lowerStr command) "anticipa" ||
         containsSub (lowerStr command) "posticipa" then "UPDATE_EVENT"
       else if containsSub (lowerStr command) "elimina" then "DELETE_EVENT"
       else "VIEW_EVENTS") := by
  unfold parseCommandLocally
  simp [h]

/-- C5 witness: "trovami gli impegni" contains the view keyword "trovami"
only, and is classified VIEW_EVENTS via the default/view branch. -/
theorem C5_witness :
    containsSub (lowerStr "trovami gli impegni") "elimina tutto" = false ∧
    (parseCommandLocally "trovami gli impegni").action = "VIEW_EVENTS" := by
  have h := C5_local_action_priority "trovami gli impegni" (by decide)
  refine ⟨by decide, ?_⟩
  rw [h]
  decide

/-- C5 counterexample: "aggiungi" is one of the claimed creation keywords,
yet the parser classifies it as VIEW_EVENTS (the code only tests "crea",
"mostra", "modifica"/"sposta"/"anticipa"/"posticipa" and "elimina", in the
order create, view, update, delete). -/
theorem C5_counterexample :
    containsSub (lowerStr "aggiungi") "aggiungi" = true ∧
    (parseCommandLocally "aggiungi").action = "VIEW_EVENTS" ∧
    ("VIEW_EVENTS" : String) ≠ "CREATE_EVENT" := by decide

/-- C3: a raw command whose lower-cased trimmed text equals
"elimina tutto" or contains "elimina tutti gli eventi" is marked as the
DELETE_ALL special command with the direct response
{action: DELETE_EVENT, deleteAll: true}, carrying the word matched by
"per (oggi|domani|questa settimana)" as the date when that regex matches
(and no date otherwise); the route then executes the direct response,
bypassing the LLM call entirely. -/
theorem C3_delete_all_special (command : String)
    (h : trimStr (lowerStr command) = "elimina tutto" ∨
         containsSub (trimStr (lowerStr command)) "elimina tutti gli eventi" = true) :
    (preprocessCommand command).metadata.isSpecialCommand = true ∧
    (preprocessCommand command).metadata.specialCommandType = some "DELETE_ALL" ∧
    (preprocessCommand command).metadata.directResponse =
      some ⟨"DELETE_EVENT", true,
        scanFirst perDateAt (trimStr (lowerStr command)).toList⟩ ∧
    bypassesLLM (preprocessCommand command).metadata = true := by
  have hcond : (trimStr (lowerStr command) == "elimina tutto" ||
      containsSub (trimStr (lowerStr command)) "elimina tutti gli eventi") = true := by
    rcases h with h | h
    · simp [h]
    · simp [h]
  unfold preprocessCommand bypassesLLM
  simp [hcond]

/-- C3 witness: "Elimina tutti gli eventi per domani" short-circuits to
the delete-all direct response with date "domani". -/
theorem C3_witness :
    containsSub (trimStr (lowerStr "Elimina tutti gli eventi per domani"))
      "elimina tutti gli eventi" = true ∧
    (preprocessCommand "Elimina tutti gli eventi per domani").metadata.directResponse =
      some ⟨"DELETE_EVENT", true, some "domani"⟩ ∧
    bypassesLLM (preprocessCommand "Elimina tutti gli eventi per domani").metadata = true := by
  have h := C3_delete_all_special "Elimina tutti gli eventi per domani" (Or.inr (by decide))
  refine ⟨by decide, ?_, h.2.2.2⟩
  rw [h.2.2.1]
  decide

/-- C6 (amended): for the command "Posticipa la riunione con Mario di due
ore", when the model output supplies no explicit startTime, endTime or
timeModification, the normalizer scans the original text and attaches
timeModification = {SHIFT, FORWARD, 1, HOUR}: the amount is the default 1,
because "due" is written out and the regex `(\d+)\s*or[ae]` only matches a
digit count. -/
theorem C6_posticipa_enrichment (p : GeminiParams)
    (h1 : p.startTime = none) (h2 : p.endTime = none) (h3 : p.timeModification = none) :
    (normalizeResponse
        ⟨some "UPDATE_EVENT", none, some p, none, none, none, none, none, none, none⟩
        "Posticipa la riunione con Mario di due ore").map
      (fun r => r.parameters.timeModification) =
    Except.ok (some ⟨"SHIFT", some "FORWARD", some 1, some "HOUR", none⟩) := by
  have hne : (("UPDATE_EVENT" : String) == "") = false := by decide
  simp only [normalizeResponse, truthyS, hne]
  norm_num [Except.map]
  simp [h1, h2, h3, truthyS]
  decide

/-- C6 witness: the empty parameter object supplies none of the three
fields, and the normalized result carries the derived shift. -/
theorem C6_witness :
    GeminiParams.empty.startTime = none ∧
    (normalizeResponse
        ⟨some "UPDATE_EVENT", none, some GeminiParams.empty, none, none, none, none, none,
          none, none⟩
        "Posticipa la riunione con Mario di due ore").map
      (fun r => r.parameters.timeModification) =
    Except.ok (some ⟨"SHIFT", some "FORWARD", some 1, some "HOUR", none⟩) :=
  ⟨rfl, C6_posticipa_enrichment GeminiParams.empty rfl rfl rfl⟩

/-- C6 counterexample: the normalized amount is 1, not the 2 the claim
states ("due ore" contains no digits, so the hour-count regex fails and
the default of 1 applies). -/
theorem C6_counterexample :
    (normalizeResponse
        ⟨some "UPDATE_EVENT", none, some GeminiParams.empty, none, none, none, none, none,
          none, none⟩
        "Posticipa la riunione con Mario di due ore").map
      (fun r => r.parameters.timeModification.map (fun tm => tm.amount)) =
    Except.ok (some (some 1)) ∧ some (1 : Int) ≠ some 2 := by decide

lemma actionPhraseMapping_canonical (s a : String)
    (h : actionPhraseMapping s = some a) : isCanonical a = true := by
  unfold actionPhraseMapping at h
  split at h
  · injection h with h; subst h; decide
  · split at h
    · injection h with h; subst h; decide
    · split at h
      · injection h with h; subst h; decide
      · split at h
        · injection h with h; subst h; decide
        · exact absurd h (by simp)

lemma flatActionMapping_canonical (s a : String)
    (h : flatActionMapping s = some a) : isCanonical a = true := by
  unfold flatActionMapping at h
  split at h
  · injection h with h; subst h; decide
  · split at h
    · injection h with h; subst h; decide
    · split at h
      · injection h with h; subst h; decide
      · split at h
        · injection h with h; subst h; decide
        · exact absurd h (by simp)

lemma canonical_contains_underscore (s : String) (h : isCanonical s = true) :
    containsSub s "_" = true := by
  unfold isCanonical at h
  simp only [Bool.or_eq_true, beq_iff_eq] at h
  rcases h with ((h | h) | h) | h <;> subst h <;> decide

/-- C1 (amended): an accepted flat-Italian-form response always normalizes
to one of the four canonical actions (unrecognized `azione` labels default
to CREATE_EVENT); an accepted nested-form response normalizes to one of
the four whenever its upper-cased label is in the phrase-mapping table or
is already canonical — but a label outside both is passed through (after
upper-casing and replacing a first space by an underscore when it has no
underscore), as the counterexample shows, so the blanket invariant of the
claim does not hold. -/
theorem C1_action_canonical (pr : ParsedResult) (cmd : String) (r : NormResult)
    (hok : normalizeResponse pr cmd = Except.ok r)
    (h : truthyS pr.action = false ∨
         (actionPhraseMapping (upperStr (pr.action.getD ""))).isSome = true ∨
         isCanonical (upperStr (pr.action.getD "")) = true) :
    isCanonical r.action = true := by
  by_cases ht : truthyS pr.action = true
  · have h' : (actionPhraseMapping (upperStr (pr.action.getD ""))).isSome = true ∨
        isCanonical (upperStr (pr.action.getD "")) = true := by
      rcases h with h | h | h
      · rw [h] at ht; exact absurd ht (by decide)
      · exact Or.inl h
      · exact Or.inr h
    unfold normalizeResponse at hok
    simp only [ht] at hok
    norm_num at hok
    subst hok
    show isCanonical (match actionPhraseMapping (upperStr (pr.action.getD "")) with
      | some a => a
      | none =>
        if containsSub (upperStr (pr.action.getD "")) "_" = false then
          replaceFirstSpace (upperStr (upperStr (pr.action.getD "")))
        else upperStr (pr.action.getD "")) = true
    rcases hmm : actionPhraseMapping (upperStr (pr.action.getD "")) with _ | a
    · have hc : isCanonical (upperStr (pr.action.getD "")) = true := by
        rcases h' with hm | hc
        · rw [hmm] at hm; exact absurd hm (by simp)
        · exact hc
      have hu := canonical_contains_underscore _ hc
      simp [hu]
      exact hc
    · exact actionPhraseMapping_canonical _ _ hmm
  · have ht' : truthyS pr.action = false := by simpa using ht
    by_cases ha : truthyS pr.azione = true
    · unfold normalizeResponse at hok
      simp only [ht', ha] at hok
      norm_num at hok
      subst hok
      show isCanonical
        ((flatActionMapping (lowerStr (pr.azione.getD ""))).getD "CREATE_EVENT") = true
      rcases hfm : flatActionMapping (lowerStr (pr.azione.getD "")) with _ | a
      · simp only [Option.getD_none]; decide
      · simp only [Option.getD_some]
        exact flatActionMapping_canonical _ _ hfm
    · have ha' : truthyS pr.azione = false := by simpa using ha
      unfold normalizeResponse at hok
      simp [ht', ha'] at hok

/-- C1 witness: a flat-form response with `azione = "Elimina_Evento"`-class
label and a nested-form response with the mapped phrase
"Visualizza eventi" both normalize to canonical actions. -/
theorem C1_witness :
    (normalizeResponse
        ⟨none, some "elimina_evento", none, none, none, none, none, none, none, none⟩ "x" =
      Except.ok ⟨"DELETE_EVENT", ⟨none, none, none, none, none, some (.arr []),
        none, none, none⟩⟩) ∧
    isCanonical
      (⟨"DELETE_EVENT", ⟨none, none, none, none, none, some (.arr []), none, none, none⟩⟩ :
        NormResult).action = true ∧
    (normalizeResponse
        ⟨some "Visualizza eventi", none, none, none, none, none, none, none, none, none⟩ "x" =
      Except.ok ⟨"VIEW_EVENTS", ⟨none, none, none, none, none, none, none, none, some 10⟩⟩) ∧
    isCanonical
      (⟨"VIEW_EVENTS", ⟨none, none, none, none, none, none, none, none, some 10⟩⟩ :
        NormResult).action = true := by
  refine ⟨by decide, ?_, by decide, ?_⟩
  · exact C1_action_canonical
      ⟨none, some "elimina_evento", none, none, none, none, none, none, none, none⟩ "x"
      ⟨"DELETE_EVENT", ⟨none, none, none, none, none, some (.arr []), none, none, none⟩⟩
      (by decide) (Or.inl (by decide))
  · exact C1_action_canonical
      ⟨some "Visualizza eventi", none, none, none, none, none, none, none, none, none⟩ "x"
      ⟨"VIEW_EVENTS", ⟨none, none, none, none, none, none, none, none, some 10⟩⟩
      (by decide) (Or.inr (Or.inl (by decide)))

/-- C1 counterexample: the nested-form label "foo" is neither in the
mapping table nor canonical, and the normalizer passes it through as
"FOO" — not one of the four canonical labels, refuting the claimed
invariant. -/
theorem C1_counterexample :
    (normalizeResponse ⟨some "foo", none, none, none, none, none, none, none, none, none⟩
        "ciao").map (fun r => (r.action, isCanonical r.action)) =
      Except.ok ("FOO", false) := by decide

lemma parseDateFromText_next (jsP : String → Option JSDate) (s : String) (ref : JSDate)
    (h1 : (trimStr (lowerStr s) == "oggi") = false)
    (h2 : (trimStr (lowerStr s) == "domani") = false)
    (h3 : (trimStr (lowerStr s) == "dopodomani") = false)
    (h4 : (containsSub (trimStr (lowerStr s)) "prossimo" ||
           containsSub (trimStr (lowerStr s)) "prossima") = true) :
    parseDateFromText jsP s ref = parseNextDay (trimStr (lowerStr s)) ⟨ref.day, 0⟩ := by
  unfold parseDateFromText
  simp [h1, h2, h3, h4]

lemma parseNextDay_spec (text : String) (base : JSDate) (w : String) (dn : Int)
    (hfind : dayMapping.find? (fun p => containsSub text p.1) = some (w, dn))
    (h0 : 0 ≤ dn) (h6 : dn < 7) :
    ((parseNextDay text base).day + 4).emod 7 = dn ∧
    base.day < (parseNextDay text base).day ∧
    (parseNextDay text base).day ≤ base.day + 7 ∧
    (parseNextDay text base).ms = base.ms ∧
    ((base.day + 4).emod 7 = dn → (parseNextDay text base).day = base.day + 7) := by
  unfold parseNextDay
  rw [hfind]
  simp only [JSDate.getDay]
  have hconv : ∀ a b : Int, Int.emod a b = a % b := fun _ _ => rfl
  simp only [hconv] at h0 h6 ⊢
  refine ⟨?_, ?_, ?_, ?_, ?_⟩ <;> dsimp only <;> (try split) <;> omega

lemma C2core (jsP : String → Option JSDate) (ref : JSDate) (w : String) (dn : Int)
    (h0 : 0 ≤ dn) (h6 : dn < 7)
    (h1 : (trimStr (lowerStr ("prossimo " ++ w)) == "oggi") = false)
    (h2 : (trimStr (lowerStr ("prossimo " ++ w)) == "domani") = false)
    (h3 : (trimStr (lowerStr ("prossimo " ++ w)) == "dopodomani") = false)
    (h4 : (containsSub (trimStr (lowerStr ("prossimo " ++ w))) "prossimo" ||
           containsSub (trimStr (lowerStr ("prossimo " ++ w))) "prossima") = true)
    (hfind : dayMapping.find?
      (fun p => containsSub (trimStr (lowerStr ("prossimo " ++ w))) p.1) = some (w, dn)) :
    (parseDateFromText jsP ("prossimo " ++ w) ref).getDay = dn ∧
    ref.day < (parseDateFromText jsP ("prossimo " ++ w) ref).day ∧
    (parseDateFromText jsP ("prossimo " ++ w) ref).ms = 0 ∧
    (ref.getDay = dn → parseDateFromText jsP ("prossimo " ++ w) ref = ⟨ref.day + 7, 0⟩) := by
  have hred := parseDateFromText_next jsP ("prossimo " ++ w) ref h1 h2 h3 h4
  have hspec := parseNextDay_spec (trimStr (lowerStr ("prossimo " ++ w))) ⟨ref.day, 0⟩ w dn
    hfind h0 h6
  rw [hred]
  refine ⟨hspec.1, hspec.2.1, hspec.2.2.2.1, ?_⟩
  intro hdow
  have hday := hspec.2.2.2.2 (by simpa [JSDate.getDay] using hdow)
  have hms := hspec.2.2.2.1
  have heta : parseNextDay (trimStr (lowerStr ("prossimo " ++ w))) ⟨ref.day, 0⟩ =
      ⟨(parseNextDay (trimStr (lowerStr ("prossimo " ++ w))) ⟨ref.day, 0⟩).day,
       (parseNextDay (trimStr (lowerStr ("prossimo " ++ w))) ⟨ref.day, 0⟩).ms⟩ := rfl
  rw [heta, hday, hms]

/-- C2: for every reference instant and every Italian weekday name in the
parser's table, "prossimo " + weekday resolves to a date falling on that
weekday, strictly after the reference date, at midnight; and when the
reference date already falls on that weekday the result is the reference
date plus exactly 7 days, never the reference date itself. -/
theorem C2_prossimo_weekday (jsP : String → Option JSDate) (ref : JSDate)
    (w : String) (dn : Int) (hw : (w, dn) ∈ dayMapping) :
    (parseDateFromText jsP ("prossimo " ++ w) ref).getDay = dn ∧
    ref.day < (parseDateFromText jsP ("prossimo " ++ w) ref).day ∧
    (parseDateFromText jsP ("prossimo " ++ w) ref).ms = 0 ∧
    (ref.getDay = dn → parseDateFromText jsP ("prossimo " ++ w) ref = ⟨ref.day + 7, 0⟩) := by
  fin_cases hw <;>
    exact C2core jsP ref _ _ (by decide) (by decide) (by decide) (by decide) (by decide)
      (by decide) (by decide)

/-- C2 witness: day 4 of the epoch scale is a Monday; "prossimo lunedì"
said then lands exactly one week later, at midnight. -/
theorem C2_witness :
    (("lunedì", (1 : Int)) ∈ dayMapping) ∧
    (⟨4, 123⟩ : JSDate).getDay = 1 ∧
    parseDateFromText (fun _ => none) ("prossimo " ++ "lunedì") ⟨4, 123⟩ = ⟨4 + 7, 0⟩ := by
  have h := C2_prossimo_weekday (fun _ => none) ⟨4, 123⟩ "lunedì" 1 (by decide)
  exact ⟨by decide, by decide, h.2.2.2 (by decide)⟩

/-- C8 (amended): the single-match fallback governs only the case where no
candidate scored above the 20-point threshold: then, for a search title
containing "riunione" and not "con", the resolver returns the unique event
titled with "riunione" starting in [today 00:00, day-after-tomorrow 00:00)
— a two-day window — and fails with the not-found error whenever the count
of such events differs from one (in particular for two equally qualifying
events).  When some candidate does score above the threshold, the first
best-scoring event is returned instead, even if several candidates tie —
see the counterexample. -/
theorem C8_fallback_requires_unique (b : Backend) (title : String) (nowMs : Int)
    (hne : b.list (findWindowQuery nowMs) ≠ [])
    (hscore : Score.lt (Score.ofInt 20)
      (bestOf (lowerStr title) (searchVariants (lowerStr title)) nowMs
        (b.list (findWindowQuery nowMs))).2 = false)
    (hr : containsSub (lowerStr title) "riunione" = true)
    (hc : containsSub (lowerStr title) "con" = false) :
    findEventByTitle b title nowMs =
      (match (b.list (findWindowQuery nowMs)).filter (riunioneTodayFilter nowMs) with
       | [m] => Except.ok m.id
       | _ => Except.error (notFoundMsg title)) := by
  unfold findEventByTitle
  have hie : (b.list (findWindowQuery nowMs)).isEmpty = false := by
    rcases h' : b.list (findWindowQuery nowMs) with _ | ⟨x, xs⟩
    · exact absurd h' hne
    · rfl
  simp only [hie, hscore, Bool.and_false, Bool.false_eq_true, if_false, hr, hc,
    Bool.not_false, Bool.and_true, Bool.true_and]
  rcases hfl : (b.list (findWindowQuery nowMs)).filter (riunioneTodayFilter nowMs) with
    _ | ⟨m, _ | ⟨m2, rest⟩⟩
  · simp
  · simp
  · simp

/-- A candidate window holding two identically titled "Riunione" events
later today (the reference instant is 01:00, the events start at 02:00). -/
def C8backend : Backend :=
  ⟨fun _ => [⟨"id1", "Riunione", "", 7200000, 10800000, [], ""⟩,
             ⟨"id2", "Riunione", "", 7200000, 10800000, [], ""⟩],
   fun _ => none, fun _ => ⟨"", ""⟩, fun _ _ => ⟨"", ""⟩⟩

/-- C8 witness: with the search title "lariunione" (contains "riunione",
no variant matches, every score stays at the 20-point bonus, i.e. not
above the threshold), two qualifying events today make the resolver fail
with the not-found error. -/
theorem C8_witness :
    Score.lt (Score.ofInt 20)
      (bestOf (lowerStr "lariunione") (searchVariants (lowerStr "lariunione")) 3600000
        (C8backend.list (findWindowQuery 3600000))).2 = false ∧
    ((C8backend.list (findWindowQuery 3600000)).filter
      (riunioneTodayFilter 3600000)).length = 2 ∧
    findEventByTitle C8backend "lariunione" 3600000 =
      Except.error (notFoundMsg "lariunione") := by
  have h := C8_fallback_requires_unique C8backend "lariunione" 3600000
    (by decide) (by decide) (by decide) (by decide)
  refine ⟨by decide, by decide, ?_⟩
  rw [h]
  decide

/-- C8 counterexample: searching "riunione" with two events titled
"Riunione" today, both scoring 100 by exact match, returns the first
event's id — the resolver guesses instead of failing with the not-found
error, refuting the claim. -/
theorem C8_counterexample :
    containsSub (lowerStr "riunione") "riunione" = true ∧
    containsSub (lowerStr "riunione") "con" = false ∧
    ((C8backend.list (findWindowQuery 3600000)).filter
      (riunioneTodayFilter 3600000)).length = 2 ∧
    findEventByTitle C8backend "riunione" 3600000 = Except.ok "id1" := by decide

lemma updateEvent_cases (b : Backend) (jsP : String → Option JSDate) (ctx : EventContext)
    (up : UpdateParams) (nowMs : Int) :
    (∃ e, updateEvent b jsP ctx up nowMs = (Except.error e, ctx)) ∨
    (∃ r i eid existing,
      resolveUpdateEventId b ctx up nowMs = Except.ok (some eid) ∧
      b.get eid = some existing ∧
      updateEvent b jsP ctx up nowMs =
        (Except.ok r, updateEventContext ctx i (updateEventFinalTitle up existing) nowMs) ∧
      r.eventId = some i) := by
  unfold updateEvent
  rcases h1 : resolveUpdateEventId b ctx up nowMs with e | _ | eid
  · exact Or.inl ⟨_, rfl⟩
  · exact Or.inl ⟨_, rfl⟩
  · dsimp only
    rcases h2 : b.get eid with _ | existing
    · exact Or.inl ⟨_, rfl⟩
    · dsimp only
      rcases h3 : updateEventTimes jsP up existing.startMs existing.endMs nowMs with e | ⟨ns, ne⟩
      · exact Or.inl ⟨_, rfl⟩
      · exact Or.inr ⟨_, _, eid, existing, rfl, h2, rfl, rfl⟩

/-- C9 (amended): every successful update overwrites the
last-handled-event context through `updateEventContext` with the returned
event's id, the event's final title (`params.title || existing.summary`
for the fetched target event) and the current timestamp — the overwrite
happening whenever both are non-empty; a successful create, however,
leaves the context untouched — the source never calls
`updateEventContext` in `createEvent`, as the counterexample shows. -/
theorem C9_context_lifecycle (b : Backend) (jsP : String → Option JSDate)
    (ctx : EventContext) (cp : CreateParams) (up : UpdateParams) (nowMs : Int) :
    (createEvent b jsP ctx cp nowMs).2 = ctx ∧
    (∀ r, (updateEvent b jsP ctx up nowMs).1 = Except.ok r →
      ∃ i eid existing, r.eventId = some i ∧
        resolveUpdateEventId b ctx up nowMs = Except.ok (some eid) ∧
        b.get eid = some existing ∧
        (updateEvent b jsP ctx up nowMs).2 =
          updateEventContext ctx i (updateEventFinalTitle up existing) nowMs ∧
        (i ≠ "" → updateEventFinalTitle up existing ≠ "" →
          (updateEvent b jsP ctx up nowMs).2 =
            ⟨some i, some (updateEventFinalTitle up existing), some nowMs⟩)) := by
  constructor
  · unfold createEvent
    dsimp only
    split <;> rfl
  · intro r hr
    rcases updateEvent_cases b jsP ctx up nowMs with ⟨e, heq⟩ |
      ⟨r0, i, eid, existing, hres, hget, heq, hid⟩
    · rw [heq] at hr
      simp at hr
    · rw [heq] at hr
      simp only [Except.ok.injEq] at hr
      subst hr
      refine ⟨i, eid, existing, hid, hres, hget, by rw [heq], ?_⟩
      intro hi hs
      rw [heq]
      have hi' : (i == "") = false := by simpa using hi
      have hs' : (updateEventFinalTitle up existing == "") = false := by simpa using hs
      simp [updateEventContext, hi', hs']

/-- A calendar backend for the context-lifecycle checks: one stored event
"Riunione" reachable under id "E1", inserts answer "NEW1", updates answer
"E1". -/
def C9backend : Backend :=
  ⟨fun _ => [],
   fun i => if i == "E1" then some ⟨"E1", "Riunione", "", 54000000, 57600000, [], "lnk"⟩
            else none,
   fun _ => ⟨"NEW1", "newlink"⟩,
   fun _ _ => ⟨"E1", "updlink"⟩⟩

def C9createParams : CreateParams := ⟨some "Cena", none, none, none, none, none⟩

def C9updParams : UpdateParams :=
  ⟨some "E1", none, none, none, none, none, none, none, none, none⟩

def C9okResult : ActionResult :=
  ⟨true, "Evento aggiornato con successo", some "E1", some "updlink", false, none⟩

/-- C9 witness: a successful update by explicit id refreshes the context
through `updateEventContext` with the returned id and the target event's
final title — concretely, the stored context becomes
(id "E1", title "Riunione", timestamp 7) — while the successful create
leaves the context untouched. -/
theorem C9_witness :
    (createEvent C9backend (fun _ => none) ⟨none, none, none⟩ C9createParams 7).2 =
      ⟨none, none, none⟩ ∧
    ((updateEvent C9backend (fun _ => none) ⟨none, none, none⟩ C9updParams 7).1 =
      Except.ok C9okResult) ∧
    (∃ i eid existing, C9okResult.eventId = some i ∧
      resolveUpdateEventId C9backend ⟨none, none, none⟩ C9updParams 7 =
        Except.ok (some eid) ∧
      C9backend.get eid = some existing ∧
      (updateEvent C9backend (fun _ => none) ⟨none, none, none⟩ C9updParams 7).2 =
        updateEventContext ⟨none, none, none⟩ i (updateEventFinalTitle C9updParams existing) 7) ∧
    (updateEvent C9backend (fun _ => none) ⟨none, none, none⟩ C9updParams 7).2 =
      ⟨some "E1", some "Riunione", some 7⟩ := by
  have h := C9_context_lifecycle C9backend (fun _ => none) ⟨none, none, none⟩
    C9createParams C9updParams 7
  obtain ⟨i, eid, existing, hid, hres, hget, hctx, _⟩ := h.2 C9okResult (by decide)
  exact ⟨h.1, by decide, ⟨i, eid, existing, hid, hres, hget, hctx⟩, by decide⟩

/-- C9 counterexample: a successful create (returned id "NEW1") leaves the
context empty — it is not overwritten with the returned event's id as the
claim requires. -/
theorem C9_counterexample :
    ((createEvent C9backend (fun _ => none) ⟨none, none, none⟩ C9createParams 7).1).map
        (fun r => (r.success, r.eventId)) = Except.ok (true, some "NEW1") ∧
    (createEvent C9backend (fun _ => none) ⟨none, none, none⟩ C9createParams 7).2 =
      ⟨none, none, none⟩ ∧
    (⟨none, none, none⟩ : EventContext).id ≠ some "NEW1" := by decide

end LuCalendar
